import Mathlib

/-!
Shallow embedding of `ionhashtest/ion_hash_test_driver.py`, the
cross-implementation ion-hash test driver, together with proofs about it.

The embedding translates the Python source directly:

* Python strings become `String`; `str.rstrip()` and `str.startswith` become
  `pyRstrip` and `pyStartswith`; `str.split(',')` becomes `pySplit`.
* The per-implementation output files opened by `report` become association
  lists `List (String × List String)` (implementation name, remaining lines);
  `file.readline()` at end of file yields `""`, exactly as in Python.
* The module-level counters `digest_no_comparison`, `digest_matches` and
  `digest_inconsistencies` become an explicit `Counters` record threaded
  through `compare_test` and `report`.
* Fallible code (`raise ValueError`) becomes `Except`.
* The filesystem and git side effects of `IonResource.__git_clone_revision`
  and `IonResource.install` become an explicit state record `FS` plus an
  environment `GitEnv` abstracting the outcome of the git subprocesses.
* The orchestration order of `ion_hash_test_driver` becomes an event trace.
-/

namespace Ionhashtest

/-- Python `str.rstrip()` whitespace predicate (ASCII whitespace). -/
def pySpace (c : Char) : Bool :=
  c = ' ' || c = '\t' || c = '\n' || c = '\r' || c = '\x0b' || c = '\x0c'

/-- Python `str.rstrip()`: drop trailing whitespace characters. -/
def pyRstrip (s : String) : String :=
  String.mk (List.reverse (List.dropWhile pySpace s.data.reverse))

/-- Python `s.startswith(p)`. -/
def pyStartswith (s p : String) : Bool := List.isPrefixOf p.data s.data

/-- Python `s.split(sep)` for a single-character separator, on the character
list: splitting the empty list yields `[""]`, matching `''.split(',')`. -/
def pySplitChar (sep : Char) : List Char → List String
  | [] => [""]
  | c :: cs =>
    let rest := pySplitChar sep cs
    if c = sep then "" :: rest
    else
      match rest with
      | [] => [String.mk [c]]
      | r :: rs => String.mk (c :: r.data) :: rs

/-- Python `s.split(sep)` for a single-character separator. -/
def pySplit (s : String) (sep : Char) : List String := pySplitChar sep s.data

/-- The three module-level counters of the driver
(`digest_no_comparison`, `digest_matches`, `digest_inconsistencies`). -/
structure Counters where
  digest_no_comparison : Nat
  digest_matches : Nat
  digest_inconsistencies : Nat
deriving DecidableEq, Repr

/-- One entry of the `digest_comparisons` list built by `compare_test`:
the `digest_comparison` dict, with its conditionally present keys as
`Option` fields. -/
structure Comparison where
  result : String
  digest : Option String := none
  digests : Option (List (List (String × String))) := none
  value : String
deriving DecidableEq, Repr

/-- `digest = report_file.readline().rstrip()` followed by the sentinel
check: a line starting with `"[unable to digest"` is recorded as the
distinguished value `"[unable to digest]"`. -/
def sentinelize (digest : String) : String :=
  if pyStartswith digest "[unable to digest" then "[unable to digest]" else digest

/-- The `digests` dict built by the read loop of `compare_test`:
one `readline().rstrip()` (EOF reads give `""`) and sentinel translation
per implementation, in implementation order. -/
def lineDigests (report_files : List (String × List String)) : List (String × String) :=
  report_files.map fun p => (p.1, sentinelize (pyRstrip (p.2.headD "")))

/-- The streams after `compare_test` has consumed one line from each. -/
def advanceStreams (report_files : List (String × List String)) : List (String × List String) :=
  report_files.map fun p => (p.1, p.2.tail)

/-- `compare_test(line, report_files, digest_comparisons)`: reads one digest
line per implementation, classifies the set of distinct values, updates the
counters, and produces the appended `digest_comparison`.  The `inconsistent`
branch reproduces the source's aliasing of the single `entry` dict: the
`digests` list holds one reference per implementation to the same dict, which
finally contains the whole mapping — hence `List.replicate`. -/
def compare_test (line : String) (report_files : List (String × List String)) (c : Counters) :
    Comparison × List (String × List String) × Counters :=
  let digests := lineDigests report_files
  let digest_set := (digests.map Prod.snd).dedup
  let comp : Comparison :=
    if digest_set.length = 0 then
      { result := "no_comparison", value := line }
    else if digest_set.length = 1 then
      { result := "full_match", digest := some (digest_set.headD ""), value := line }
    else
      { result := "inconsistent", digests := some (List.replicate digests.length digests),
        value := line }
  let c' : Counters :=
    if digest_set.length = 0 then
      { c with digest_no_comparison := c.digest_no_comparison + 1 }
    else if digest_set.length = 1 then
      { c with digest_matches := c.digest_matches + 1 }
    else
      { c with digest_inconsistencies := c.digest_inconsistencies + 1 }
  (comp, advanceStreams report_files, c')

/-- The `summary` dict assembled at the end of `report`. -/
structure Summary where
  test_count : Nat
  digest_matches : Nat
  digest_inconsistent : Nat
  digest_no_comparison : Nat
deriving DecidableEq, Repr

/-- The `_report` dict returned by `report`. -/
structure Report where
  digests : List Comparison
  summary : Summary
deriving DecidableEq, Repr

/-- The `for line in tf` loop of `report`: each raw file line is rstripped
and handed to `compare_test`; comparisons are accumulated in order. -/
def runLines : List String → List (String × List String) → Counters →
    List Comparison × List (String × List String) × Counters
  | [], files, c => ([], files, c)
  | l :: rest, files, c =>
    let out := compare_test (pyRstrip l) files c
    let outs := runLines rest out.2.1 out.2.2
    (out.1 :: outs.1, outs.2.1, outs.2.2)

/-- `report(impls, test_file)`: `report_files` are the opened per-implementation
output streams, `test_lines` the raw lines of the test file, `c` the value of
the module-level counters on entry (they are global and never reset).  Returns
the report and the final counter state. -/
def report (report_files : List (String × List String)) (test_lines : List String)
    (c : Counters) : Report × Counters :=
  let out := runLines test_lines report_files c
  ({ digests := out.1,
     summary :=
      { test_count := out.1.length,
        digest_matches := out.2.2.digest_matches,
        digest_inconsistent := out.2.2.digest_inconsistencies,
        digest_no_comparison := out.2.2.digest_no_comparison } }, out.2.2)

/-- `tokenize_description(description, has_name)`.  The source raises
`ValueError` for too few components; modelled as `Except.error`.  On success
the source returns a 3-tuple (name, location, revision) when `has_name`, a
2-tuple (location, revision) otherwise; modelled as the list of components. -/
def tokenize_description (description : String) (has_name : Bool) :
    Except String (List String) :=
  let components := pySplit description ','
  let max_components := if has_name then 3 else 2
  let revision :=
    if components.length < max_components then "master"
    else components.getD (max_components - 1) ""
  if components.length < max_components - 1 then
    .error "Invalid implementation description."
  else if has_name then
    .ok [components.getD 0 "", components.getD (max_components - 2) "", revision]
  else
    .ok [components.getD (max_components - 2) "", revision]

/-- Errors raised by `IonHashImplementation.test` before spawning the
subprocess. -/
inductive TestError where
  | notInstalled (name : String)
  | notExecutable (name : String)
  | executableMissing (name : String)
deriving DecidableEq, Repr

/-- The subprocess invocation `Popen([self._executable, algorithm, test_file], ...)`. -/
structure SpawnCall where
  exe : String
  algorithm : String
  testFile : String
deriving DecidableEq, Repr

/-- Resolution of `self._executable`: the cached field if set, else
`build_dir/build.execute`, erroring when the build declares no executable. -/
def resolveExecutable (name : String) (build_dir : String)
    (executable : Option String) (build_execute : Option String) :
    Except TestError String :=
  match executable with
  | some e => .ok e
  | none =>
    match build_execute with
    | none => .error (.notExecutable name)
    | some rel => .ok (build_dir ++ "/" ++ rel)

/-- `IonHashImplementation.test(test_file, algorithm)`: the three precondition
checks in source order, then the spawn.  `is_file` abstracts
`os.path.isfile`. -/
def implementation_test (name : String) (build_dir : Option String)
    (executable : Option String) (build_execute : Option String)
    (is_file : String → Bool) (test_file algorithm : String) :
    Except TestError SpawnCall :=
  match build_dir with
  | none => .error (.notInstalled name)
  | some bd =>
    match resolveExecutable name bd executable build_execute with
    | .error e => .error e
    | .ok exe =>
      if is_file exe = false then .error (.executableMissing name)
      else .ok { exe := exe, algorithm := algorithm, testFile := test_file }

/-- Abstraction of the git subprocesses used by `IonResource.__git_clone_revision`:
whether `git clone`, `git checkout` and `git rev-parse` succeed, and the short
commit hash resolved for a (location, revision) pair.  `commitOf location none`
is the commit at the clone's default HEAD (no checkout performed). -/
structure GitEnv where
  cloneOk : String → Bool
  checkoutOk : String → String → Bool
  revParseOk : String → Option String → Bool
  commitOf : String → Option String → String

/-- Failures of the git steps inside `__git_clone_revision`. -/
inductive GitError where
  | cloneFailed
  | checkoutFailed
  | revParseFailed
deriving DecidableEq, Repr

/-- The filesystem / event state touched by resource resolution:
the permanent build directories under `output_root/build`, the promotions of a
staging clone into a build directory (`shutil.move(tmp_dir, build_dir)`), the
invocations of the external `build.install` procedure, and whether the
temporary staging root `output_root/build/tmp` currently exists. -/
structure FS where
  buildDirs : List String
  moves : List String
  installs : List String
  tmpRootExists : Bool
deriving DecidableEq, Repr

/-- `IonResource.__git_clone_revision`: clone into the staging root, check out
the revision when one is given, resolve the short commit, derive
`identifier = name + '_' + commit` and the build directory, promote the
staging clone only when the build directory does not already exist, and — in
the `finally` block — remove the staging root on every exit path.  Returns the
(identifier, build_dir) pair on success. -/
def git_clone_revision (env : GitEnv) (name location : String) (revision : Option String)
    (st : FS) : Except GitError (String × String) × FS :=
  let st1 : FS := { st with tmpRootExists := true }
  let body : Except GitError ((String × String) × FS) :=
    if env.cloneOk location = false then .error .cloneFailed
    else if (match revision with
             | none => true
             | some r => env.checkoutOk location r) = false then .error .checkoutFailed
    else if env.revParseOk location revision = false then .error .revParseFailed
    else
      let identifier := name ++ "_" ++ env.commitOf location revision
      let build_dir := "build/" ++ identifier
      if build_dir ∈ st1.buildDirs then
        .ok ((identifier, build_dir), st1)
      else
        .ok ((identifier, build_dir),
             { st1 with buildDirs := build_dir :: st1.buildDirs,
                        moves := identifier :: st1.moves })
  match body with
  | .error e => (.error e, { st1 with tmpRootExists := false })
  | .ok (res, st2) => (.ok res, { st2 with tmpRootExists := false })

/-- `IonResource.install`: run `__git_clone_revision` (propagating its
failures), then unconditionally invoke the externally supplied
`self._build.install` against the build directory, and return the build
directory. -/
def install (env : GitEnv) (name location : String) (revision : Option String)
    (st : FS) : Except GitError String × FS :=
  match git_clone_revision env name location revision st with
  | (.error e, st') => (.error e, st')
  | (.ok (identifier, build_dir), st') =>
    (.ok build_dir, { st' with installs := identifier :: st'.installs })

/-- The command-line arguments consumed by `ion_hash_test_driver`
(after docopt parsing). -/
structure Args where
  help : Bool
  list : Bool
  implementations : List String
  local_only : Bool
  ion_hash_test : Option String
  output_dir : String

/-- Fatal errors surfaced by the orchestrator: `ValueError`s raised during
descriptor parsing / resource construction (configuration) and the error
raised by `check_tool_dependencies` (tool availability). -/
inductive DriverError where
  | configurationError (msg : String)
  | toolAvailabilityError (tool : String)
deriving DecidableEq, Repr

/-- The observable work steps of a driver run, in execution order. -/
inductive Event where
  | mkOutputRoot
  | construct (name : String)
  | toolCheck
  | installRes (name : String)
  | generateTests
  | runImpl (name : String)
  | reportResults
  | printHelp
  | printList
deriving DecidableEq, Repr

/-- `parse_implementations`: tokenize each description and construct an
`IonHashImplementation`, whose `__init__` looks the name up in `ION_BUILDS`
(modelled as the list `builds`) and raises `ValueError` when absent.  Returns
the constructed names and the construction events performed before any
failure. -/
def constructAll (builds : List String) : List String →
    Except DriverError (List String) × List Event
  | [] => (.ok [], [])
  | d :: ds =>
    match tokenize_description d true with
    | .error e => (.error (.configurationError e), [])
    | .ok comps =>
      let name := comps.headD ""
      if name ∈ builds then
        match constructAll builds ds with
        | (.ok names, evs) => (.ok (name :: names), .construct name :: evs)
        | (.error er, evs) => (.error er, .construct name :: evs)
      else
        (.error (.configurationError ("No installer for " ++ name ++ ".")), [])

/-- `ion_hash_test_driver(arguments)` as an event trace.  `builds` models the
`ION_BUILDS` registry, `ion_implementations` the `ION_IMPLEMENTATIONS` default
descriptions and `ion_hash_test_source` the `ION_HASH_TEST_SOURCE` default
(all imported from `ionhashtest.config`, outside this module); `toolOk` is the
outcome of `check_tool_dependencies`.  The source's order is preserved:
output-root creation, implementation parsing/construction (explicit
descriptors first, then the defaults unless `--local-only`), tool check,
implementation installs, ion-hash-test resolution and install, test
generation, runs, report. -/
def ion_hash_test_driver (builds ion_implementations : List String)
    (ion_hash_test_source : String) (toolOk : Bool) (args : Args) :
    Except DriverError Unit × List Event :=
  if args.help then (.ok (), [.printHelp])
  else if args.list then (.ok (), [.printList])
  else
    let descs := args.implementations ++ (if args.local_only then [] else ion_implementations)
    match constructAll builds descs with
    | (.error er, evs) => (.error er, .mkOutputRoot :: evs)
    | (.ok names, evs) =>
      if toolOk = false then
        (.error (.toolAvailabilityError "git"), .mkOutputRoot :: (evs ++ [.toolCheck]))
      else
        let src := args.ion_hash_test.getD ion_hash_test_source
        match tokenize_description src false with
        | .error er =>
          (.error (.configurationError er),
           .mkOutputRoot :: (evs ++ [.toolCheck] ++ names.map .installRes))
        | .ok _ =>
          if "ion-hash-test" ∈ builds then
            (.ok (),
             .mkOutputRoot :: (evs ++ [.toolCheck] ++ names.map .installRes
               ++ [.construct "ion-hash-test", .installRes "ion-hash-test", .generateTests]
               ++ names.map .runImpl ++ [.reportResults]))
          else
            (.error (.configurationError "No installer for ion-hash-test."),
             .mkOutputRoot :: (evs ++ [.toolCheck] ++ names.map .installRes))

/-! ## Helper lemmas -/

/-- A non-empty list whose elements are all equal dedups to the singleton. -/
lemma dedup_all_eq {l : List String} {x : String} (hne : l ≠ []) (hall : ∀ y ∈ l, y = x) :
    l.dedup = [x] := by
  induction l with
  | nil => exact absurd rfl hne
  | cons a t ih =>
    have ha : a = x := hall a (List.mem_cons_self a t)
    cases t with
    | nil => simp [ha]
    | cons b t' =>
      have ht : (b :: t').dedup = [x] := by
        refine ih (by simp) ?_
        intro y hy
        exact hall y (List.mem_cons_of_mem a hy)
      have hm : a ∈ (b :: t').dedup := by
        rw [ht, ha]; exact List.mem_singleton.mpr rfl
      rw [List.dedup_cons_of_mem' hm, ht]

/-- A list containing two distinct elements has at least two distinct values. -/
lemma two_le_dedup_length {l : List String} {x y : String} (hx : x ∈ l) (hy : y ∈ l)
    (hxy : x ≠ y) : 2 ≤ l.dedup.length := by
  have hx' : x ∈ l.dedup := List.mem_dedup.mpr hx
  have hy' : y ∈ l.dedup := List.mem_dedup.mpr hy
  match h : l.dedup with
  | [] => rw [h] at hx'; simp at hx'
  | [a] =>
    rw [h] at hx' hy'
    simp at hx' hy'
    exact absurd (hx'.trans hy'.symm) hxy
  | a :: b :: t => simp

/-- `compare_test` stores the (rstripped) test-vector line it was given as
the comparison's `value` in every branch. -/
lemma compare_test_value (line : String) (report_files : List (String × List String))
    (c : Counters) : (compare_test line report_files c).1.value = line := by
  simp only [compare_test]
  split_ifs <;> rfl

/-- Every `compare_test` call increments the sum of the three counters by
exactly one. -/
lemma compare_test_sum (line : String) (report_files : List (String × List String))
    (c : Counters) :
    (compare_test line report_files c).2.2.digest_no_comparison +
      (compare_test line report_files c).2.2.digest_matches +
      (compare_test line report_files c).2.2.digest_inconsistencies =
    c.digest_no_comparison + c.digest_matches + c.digest_inconsistencies + 1 := by
  simp only [compare_test]
  split
  · simp; omega
  · split <;> simp <;> omega

/-- The comparisons produced by the report loop carry the rstripped corpus
lines, in order. -/
lemma runLines_values (test_lines : List String) :
    ∀ (files : List (String × List String)) (c : Counters),
    (runLines test_lines files c).1.map Comparison.value = test_lines.map pyRstrip := by
  induction test_lines with
  | nil => intro files c; simp [runLines]
  | cons l rest ih =>
    intro files c
    simp only [runLines, List.map_cons, List.map]
    rw [compare_test_value, ih]

/-- One comparison is produced per corpus line. -/
lemma runLines_length (test_lines : List String) :
    ∀ (files : List (String × List String)) (c : Counters),
    (runLines test_lines files c).1.length = test_lines.length := by
  induction test_lines with
  | nil => intro files c; simp [runLines]
  | cons l rest ih =>
    intro files c
    simp only [runLines, List.length_cons]
    rw [ih]

/-- The sum of the three counters grows by exactly the number of corpus
lines processed. -/
lemma runLines_sum (test_lines : List String) :
    ∀ (files : List (String × List String)) (c : Counters),
    (runLines test_lines files c).2.2.digest_no_comparison +
      (runLines test_lines files c).2.2.digest_matches +
      (runLines test_lines files c).2.2.digest_inconsistencies =
    c.digest_no_comparison + c.digest_matches + c.digest_inconsistencies +
      test_lines.length := by
  induction test_lines with
  | nil => intro files c; simp [runLines]
  | cons l rest ih =>
    intro files c
    simp only [runLines, List.length_cons]
    rw [ih]
    rw [compare_test_sum]
    omega

/-! ## Claim theorems -/

/-- C2: for every test-vector line, after collecting the set of distinct
digest values reported by the implementations, `compare_test` yields exactly:
`no_comparison` when zero implementations are present, `full_match`
(recording the single value as the digest) when exactly one distinct value
exists, and `inconsistent` (recording the per-implementation name-to-digest
mapping) when more than one distinct value exists; exactly one run-wide
counter is incremented per line. -/
theorem compare_test_classifies (line : String)
    (report_files : List (String × List String)) (c : Counters) :
    (report_files = [] →
      (compare_test line report_files c).1.result = "no_comparison" ∧
      (compare_test line report_files c).2.2 =
        { c with digest_no_comparison := c.digest_no_comparison + 1 }) ∧
    (∀ v, ((lineDigests report_files).map Prod.snd).dedup = [v] →
      (compare_test line report_files c).1.result = "full_match" ∧
      (compare_test line report_files c).1.digest = some v ∧
      (compare_test line report_files c).2.2 =
        { c with digest_matches := c.digest_matches + 1 }) ∧
    (1 < ((lineDigests report_files).map Prod.snd).dedup.length →
      (compare_test line report_files c).1.result = "inconsistent" ∧
      (compare_test line report_files c).1.digests =
        some (List.replicate (lineDigests report_files).length (lineDigests report_files)) ∧
      (compare_test line report_files c).2.2 =
        { c with digest_inconsistencies := c.digest_inconsistencies + 1 }) ∧
    ((compare_test line report_files c).2.2.digest_no_comparison +
        (compare_test line report_files c).2.2.digest_matches +
        (compare_test line report_files c).2.2.digest_inconsistencies =
      c.digest_no_comparison + c.digest_matches + c.digest_inconsistencies + 1) := by
  refine ⟨?_, ?_, ?_, compare_test_sum line report_files c⟩
  · intro h
    subst h
    simp [compare_test, lineDigests]
  · intro v hv
    simp [compare_test, hv]
  · intro h
    have h0 : ¬ ((lineDigests report_files).map Prod.snd).dedup.length = 0 := by omega
    have h1 : ¬ ((lineDigests report_files).map Prod.snd).dedup.length = 1 := by omega
    simp [compare_test, h0, h1]

/-- Witness for C2: two implementations agreeing on `"d1"` produce a
`full_match`. -/
theorem compare_test_classifies_witness :
    (compare_test "line" [("A", ["d1"]), ("B", ["d1"])] ⟨0, 0, 0⟩).1.result
      = "full_match" := by
  have h := compare_test_classifies "line" [("A", ["d1"]), ("B", ["d1"])] ⟨0, 0, 0⟩
  exact (h.2.1 "d1" (by decide)).1

/-- C3: every captured line beginning with the reserved `"[unable to digest"`
prefix is recorded as the distinguished value `"[unable to digest]"`, that
value participates in equality comparison like any digest, and when every
implementation reports the sentinel for the same line (whatever the text
after the prefix) the outcome is a full match. -/
theorem sentinel_collapses (line : String) (report_files : List (String × List String))
    (c : Counters) (hne : report_files ≠ [])
    (hall : ∀ p ∈ report_files,
      pyStartswith (pyRstrip (p.2.headD "")) "[unable to digest" = true) :
    (∀ q ∈ lineDigests report_files, q.2 = "[unable to digest]") ∧
    (compare_test line report_files c).1.result = "full_match" ∧
    (compare_test line report_files c).1.digest = some "[unable to digest]" := by
  have hvals : ∀ q ∈ lineDigests report_files, q.2 = "[unable to digest]" := by
    intro q hq
    simp only [lineDigests, List.mem_map] at hq
    obtain ⟨p, hp, rfl⟩ := hq
    show sentinelize (pyRstrip (p.2.headD "")) = "[unable to digest]"
    simp only [sentinelize, hall p hp, if_true]
  have hset : ((lineDigests report_files).map Prod.snd).dedup = ["[unable to digest]"] := by
    refine dedup_all_eq ?_ ?_
    · simp [lineDigests]
      exact hne
    · intro y hy
      simp only [List.mem_map] at hy
      obtain ⟨q, hq, rfl⟩ := hy
      exact hvals q hq
  refine ⟨hvals, ?_, ?_⟩
  · simp [compare_test, hset]
  · simp [compare_test, hset]

/-- Witness for C3: two implementations, sentinel lines with different
suffix text, full match. -/
theorem sentinel_collapses_witness :
    (compare_test "v" [("A", ["[unable to digest foo]"]), ("B", ["[unable to digest bar]"])]
        ⟨0, 0, 0⟩).1.result = "full_match" :=
  (sentinel_collapses "v" [("A", ["[unable to digest foo]"]), ("B", ["[unable to digest bar]"])]
    ⟨0, 0, 0⟩ (by decide) (by decide)).2.1

/-- C10: an exhausted capture stream does not make the comparator fail: the
implementation's digest for the line is recorded as the empty string, the
outcome is a full match only if every implementation reports the empty
string, and it is inconsistent whenever some other implementation reports a
non-empty digest. -/
theorem short_read_pads_empty (line : String) (report_files : List (String × List String))
    (c : Counters) (n m d : String) :
    ((n, ([] : List String)) ∈ report_files → (n, "") ∈ lineDigests report_files) ∧
    (report_files ≠ [] → (∀ q ∈ lineDigests report_files, q.2 = "") →
      (compare_test line report_files c).1.result = "full_match") ∧
    ((n, "") ∈ lineDigests report_files →
      (compare_test line report_files c).1.result = "full_match" →
      ∀ q ∈ lineDigests report_files, q.2 = "") ∧
    ((n, "") ∈ lineDigests report_files → (m, d) ∈ lineDigests report_files → d ≠ "" →
      (compare_test line report_files c).1.result = "inconsistent") := by
  have hpad : (n, ([] : List String)) ∈ report_files → (n, "") ∈ lineDigests report_files := by
    intro h
    have := List.mem_map_of_mem
      (fun p : String × List String => (p.1, sentinelize (pyRstrip (p.2.headD "")))) h
    simpa [lineDigests] using this
  have hincons : ∀ n' m' d', (n', "") ∈ lineDigests report_files →
      (m', d') ∈ lineDigests report_files →
      d' ≠ "" → (compare_test line report_files c).1.result = "inconsistent" := by
    intro n' m' d' hn hm hd
    have h1 : ("" : String) ∈ (lineDigests report_files).map Prod.snd :=
      List.mem_map_of_mem Prod.snd hn
    have h2 : d' ∈ (lineDigests report_files).map Prod.snd :=
      List.mem_map_of_mem Prod.snd hm
    have hlen : 2 ≤ ((lineDigests report_files).map Prod.snd).dedup.length :=
      two_le_dedup_length h1 h2 (fun h => hd h.symm)
    have h0 : ¬ ((lineDigests report_files).map Prod.snd).dedup.length = 0 := by omega
    have hone : ¬ ((lineDigests report_files).map Prod.snd).dedup.length = 1 := by omega
    simp [compare_test, h0, hone]
  refine ⟨hpad, ?_, ?_, hincons n m d⟩
  · intro hne hall
    have hset : ((lineDigests report_files).map Prod.snd).dedup = [""] := by
      refine dedup_all_eq ?_ ?_
      · simp [lineDigests]; exact hne
      · intro y hy
        simp only [List.mem_map] at hy
        obtain ⟨q, hq, rfl⟩ := hy
        exact hall q hq
    simp [compare_test, hset]
  · intro hn hres q hq
    by_contra hne'
    have : (compare_test line report_files c).1.result = "inconsistent" :=
      hincons n q.1 q.2 hn (by simpa using hq) hne'
    rw [hres] at this
    exact absurd this (by decide)

/-- Witness for C10: one exhausted stream against one real digest is
inconsistent. -/
theorem short_read_pads_empty_witness :
    (compare_test "v" [("A", ([] : List String)), ("B", ["d1"])] ⟨0, 0, 0⟩).1.result
      = "inconsistent" := by
  have h := short_read_pads_empty "v" [("A", ([] : List String)), ("B", ["d1"])]
    ⟨0, 0, 0⟩ "A" "B" "d1"
  exact h.2.2.2 (by decide) (by decide) (by decide)

/-- C8: the report's comparison sequence has exactly one entry per corpus
line, in corpus order, each carrying the (rstripped) original line as its
`value`, and the summary's `test_count` equals the length of that
sequence. -/
theorem report_preserves_order (report_files : List (String × List String))
    (test_lines : List String) (c : Counters) :
    (report report_files test_lines c).1.digests.length = test_lines.length ∧
    (report report_files test_lines c).1.digests.map Comparison.value
      = test_lines.map pyRstrip ∧
    (report report_files test_lines c).1.summary.test_count
      = (report report_files test_lines c).1.digests.length := by
  refine ⟨?_, ?_, rfl⟩
  · simp only [report]
    exact runLines_length test_lines report_files c
  · simp only [report]
    exact runLines_values test_lines report_files c

/-- C9: for a single `report` invocation starting from fresh (zero) counters
the summary satisfies `test_count = digest_matches + digest_inconsistent +
digest_no_comparison`, but a second invocation in the same process starts
from the accumulated counters, so its summary counts both runs while
`test_count` counts only the second file's lines and the equality fails. -/
theorem counters_accumulate_across_reports :
    (∀ (report_files : List (String × List String)) (test_lines : List String),
      (report report_files test_lines ⟨0, 0, 0⟩).1.summary.test_count =
        (report report_files test_lines ⟨0, 0, 0⟩).1.summary.digest_matches +
        (report report_files test_lines ⟨0, 0, 0⟩).1.summary.digest_inconsistent +
        (report report_files test_lines ⟨0, 0, 0⟩).1.summary.digest_no_comparison) ∧
    ((report [("A", ["d1"])] ["v"]
        (report [("A", ["d1"])] ["v"] ⟨0, 0, 0⟩).2).1.summary.test_count = 1 ∧
     (report [("A", ["d1"])] ["v"]
        (report [("A", ["d1"])] ["v"] ⟨0, 0, 0⟩).2).1.summary.digest_matches = 2 ∧
     ¬ ((report [("A", ["d1"])] ["v"]
        (report [("A", ["d1"])] ["v"] ⟨0, 0, 0⟩).2).1.summary.test_count =
          (report [("A", ["d1"])] ["v"]
            (report [("A", ["d1"])] ["v"] ⟨0, 0, 0⟩).2).1.summary.digest_matches +
          (report [("A", ["d1"])] ["v"]
            (report [("A", ["d1"])] ["v"] ⟨0, 0, 0⟩).2).1.summary.digest_inconsistent +
          (report [("A", ["d1"])] ["v"]
            (report [("A", ["d1"])] ["v"] ⟨0, 0, 0⟩).2).1.summary.digest_no_comparison)) := by
  constructor
  · intro report_files test_lines
    have hs := runLines_sum test_lines report_files ⟨0, 0, 0⟩
    have hl := runLines_length test_lines report_files ⟨0, 0, 0⟩
    simp only [report]
    simp only [show (⟨0, 0, 0⟩ : Counters).digest_no_comparison = 0 from rfl,
      show (⟨0, 0, 0⟩ : Counters).digest_matches = 0 from rfl,
      show (⟨0, 0, 0⟩ : Counters).digest_inconsistencies = 0 from rfl] at hs
    omega
  · exact ⟨by decide, by decide, by decide⟩

/-- Splitting a character list never yields the empty list: every Python
`str.split` result has at least one component. -/
lemma pySplitChar_ne_nil (sep : Char) (l : List Char) : pySplitChar sep l ≠ [] := by
  cases l with
  | nil => simp [pySplitChar]
  | cons c cs =>
    simp only [pySplitChar]
    split
    · simp
    · split <;> simp

/-- C6: on every exit path of `__git_clone_revision` — promotion of the
staging clone, reuse of an existing build directory, or failure during
cloning, checkout, or commit resolution — the temporary staging root is
removed afterwards. -/
theorem staging_root_always_removed (env : GitEnv) (name location : String)
    (revision : Option String) (st : FS) :
    ((git_clone_revision env name location revision st).2).tmpRootExists = false := by
  simp only [git_clone_revision]
  split <;> rfl

/-- C5: each of the three preconditions of `IonHashImplementation.test` —
installation completed (build directory known), an executable entry point
declared, and the entry point existing on disk at invocation time — is
enforced with an explicit error, and a subprocess spawn is produced only
when all three hold. -/
theorem test_preconditions_enforced (name : String) (build_dir : Option String)
    (executable build_execute : Option String) (is_file : String → Bool)
    (test_file algorithm : String) :
    (build_dir = none →
      implementation_test name build_dir executable build_execute is_file test_file algorithm
        = .error (.notInstalled name)) ∧
    (∀ bd, build_dir = some bd → executable = none → build_execute = none →
      implementation_test name build_dir executable build_execute is_file test_file algorithm
        = .error (.notExecutable name)) ∧
    (∀ bd exe, build_dir = some bd →
      resolveExecutable name bd executable build_execute = .ok exe →
      is_file exe = false →
      implementation_test name build_dir executable build_execute is_file test_file algorithm
        = .error (.executableMissing name)) ∧
    (∀ call, implementation_test name build_dir executable build_execute is_file
        test_file algorithm = .ok call →
      build_dir.isSome = true ∧ (executable.isSome = true ∨ build_execute.isSome = true) ∧
      is_file call.exe = true) := by
  refine ⟨?_, ?_, ?_, ?_⟩
  · intro h
    subst h
    rfl
  · intro bd hbd hexec hbe
    subst hbd; subst hexec; subst hbe
    rfl
  · intro bd exe hbd hres hfile
    subst hbd
    simp only [implementation_test, hres, hfile]
    rfl
  · intro call hcall
    cases build_dir with
    | none => simp [implementation_test] at hcall
    | some bd =>
      refine ⟨rfl, ?_, ?_⟩
      · cases executable with
        | some e => simp
        | none =>
          cases build_execute with
          | none => simp [implementation_test, resolveExecutable] at hcall
          | some rel => simp
      · simp only [implementation_test] at hcall
        cases hres : resolveExecutable name bd executable build_execute with
        | error e => rw [hres] at hcall; exact absurd hcall (by simp)
        | ok exe =>
          rw [hres] at hcall
          dsimp only at hcall
          by_cases hf : is_file exe = false
          · rw [if_pos hf] at hcall
            exact absurd hcall (by simp)
          · rw [if_neg hf] at hcall
            injection hcall with h
            rw [← h]
            exact eq_true_of_ne_false hf

/-- Witness for C5: a not-yet-installed implementation fails with the
not-installed error. -/
theorem test_preconditions_enforced_witness :
    implementation_test "impl" none none none (fun _ => true) "t" "md5"
      = .error (.notInstalled "impl") :=
  (test_preconditions_enforced "impl" none none none (fun _ => true) "t" "md5").1 rfl

/-- C7: tokenizing a resource description yields the canonical default
branch `"master"` as the revision whenever the revision token is omitted,
and fails with a configuration error whenever the description has fewer
tokens than its form requires; a name-less description always has at least
one token, so its minimum can never be undershot. -/
theorem tokenize_defaults_and_errors (description : String) :
    (1 ≤ (pySplit description ',').length) ∧
    ((pySplit description ',').length < 2 →
      tokenize_description description true = .error "Invalid implementation description.") ∧
    ((pySplit description ',').length = 2 →
      tokenize_description description true =
        .ok [(pySplit description ',').getD 0 "", (pySplit description ',').getD 1 "",
             "master"]) ∧
    ((pySplit description ',').length = 1 →
      tokenize_description description false =
        .ok [(pySplit description ',').getD 0 "", "master"]) ∧
    (∃ loc rev, tokenize_description description false = .ok [loc, rev]) := by
  have hne : pySplit description ',' ≠ [] := pySplitChar_ne_nil ',' description.data
  have hlen : 1 ≤ (pySplit description ',').length := by
    cases h : pySplit description ',' with
    | nil => exact absurd h hne
    | cons a t => simp
  refine ⟨hlen, ?_, ?_, ?_, ?_⟩
  · intro h2
    have h1 : (pySplit description ',').length = 1 := by omega
    simp [tokenize_description, h1]
  · intro h2
    simp [tokenize_description, h2]
  · intro h1
    simp [tokenize_description, h1]
  · by_cases h1 : (pySplit description ',').length = 1
    · exact ⟨(pySplit description ',').getD 0 "", "master",
        by simp [tokenize_description, h1]⟩
    · have hnl2 : ¬ (pySplit description ',').length < 2 := by omega
      have hnl1 : ¬ (pySplit description ',').length < 1 := by omega
      exact ⟨(pySplit description ',').getD 0 "", (pySplit description ',').getD 1 "",
        by simp [tokenize_description, hnl2, hnl1]⟩

/-- Witness for C7: `"name,loc"` tokenizes with the default revision
`"master"`; a bare `"name"` is rejected. -/
theorem tokenize_defaults_and_errors_witness :
    tokenize_description "name,loc" true =
      .ok [(pySplit "name,loc" ',').getD 0 "", (pySplit "name,loc" ',').getD 1 "",
           "master"] ∧
    tokenize_description "name" true = .error "Invalid implementation description." :=
  ⟨(tokenize_defaults_and_errors "name,loc").2.2.1 (by decide),
   (tokenize_defaults_and_errors "name").2.1 (by decide)⟩

/-- String concatenation is left-cancellative. -/
lemma string_append_cancel {a b c : String} (h : a ++ b = a ++ c) : b = c := by
  have h2 := congrArg String.data h
  simp [String.data_append] at h2
  exact String.ext h2

/-- When the git steps succeed, `__git_clone_revision` returns the
identifier `name_commit` and build directory `build/<identifier>`, promotes
the staging clone only when the build directory is new, and clears the
staging root. -/
lemma git_clone_revision_ok (env : GitEnv) (name location : String)
    (revision : Option String) (st : FS) (hclone : env.cloneOk location = true)
    (hco : (match revision with
            | none => true
            | some r => env.checkoutOk location r) = true)
    (hrp : env.revParseOk location revision = true) :
    git_clone_revision env name location revision st =
      (.ok (name ++ "_" ++ env.commitOf location revision,
            "build/" ++ (name ++ "_" ++ env.commitOf location revision)),
       if "build/" ++ (name ++ "_" ++ env.commitOf location revision) ∈ st.buildDirs then
         { st with tmpRootExists := false }
       else
         { st with
             buildDirs :=
               ("build/" ++ (name ++ "_" ++ env.commitOf location revision)) :: st.buildDirs,
             moves := (name ++ "_" ++ env.commitOf location revision) :: st.moves,
             tmpRootExists := false }) := by
  by_cases hmem : ("build/" ++ (name ++ "_" ++ env.commitOf location revision)) ∈ st.buildDirs
  · simp only [git_clone_revision, hclone, hco, hrp]
    rw [if_pos hmem, if_pos hmem]
    rfl
  · simp only [git_clone_revision, hclone, hco, hrp]
    rw [if_neg hmem, if_neg hmem]
    rfl

/-- When the git steps succeed, `install` returns the build directory and
appends one invocation of the external install procedure, regardless of
whether the build directory already existed. -/
lemma install_ok (env : GitEnv) (name location : String)
    (revision : Option String) (st : FS) (hclone : env.cloneOk location = true)
    (hco : (match revision with
            | none => true
            | some r => env.checkoutOk location r) = true)
    (hrp : env.revParseOk location revision = true) :
    install env name location revision st =
      (.ok ("build/" ++ (name ++ "_" ++ env.commitOf location revision)),
       if "build/" ++ (name ++ "_" ++ env.commitOf location revision) ∈ st.buildDirs then
         { st with
             installs := (name ++ "_" ++ env.commitOf location revision) :: st.installs,
             tmpRootExists := false }
       else
         { st with
             buildDirs :=
               ("build/" ++ (name ++ "_" ++ env.commitOf location revision)) :: st.buildDirs,
             moves := (name ++ "_" ++ env.commitOf location revision) :: st.moves,
             installs := (name ++ "_" ++ env.commitOf location revision) :: st.installs,
             tmpRootExists := false }) := by
  simp only [install, git_clone_revision_ok env name location revision st hclone hco hrp]
  split <;> rfl

/-- A fully successful `GitEnv` in which every (location, revision) resolves
to the short commit `abc1234`. -/
def envAll : GitEnv :=
  { cloneOk := fun _ => true
    checkoutOk := fun _ _ => true
    revParseOk := fun _ _ => true
    commitOf := fun _ _ => "abc1234" }

/-- An empty output root: no build directories, no events, no staging root. -/
def st0 : FS := { buildDirs := [], moves := [], installs := [], tmpRootExists := false }

/-- C1 counterexample: resolving the same (name, location, revision) a
second time in the same output root, with the build directory for the
resolved identifier already present, runs the externally supplied install
procedure again — the `installs` event list grows from one entry to two, so
the second resolve does not short-circuit reinstallation. -/
theorem install_rerun_counterexample :
    ("build/impl_abc1234" ∈ (install envAll "impl" "loc" none st0).2.buildDirs) ∧
    (install envAll "impl" "loc" none st0).2.installs = ["impl_abc1234"] ∧
    (install envAll "impl" "loc" none
        (install envAll "impl" "loc" none st0).2).2.installs
      = ["impl_abc1234", "impl_abc1234"] ∧
    ¬ ((install envAll "impl" "loc" none
        (install envAll "impl" "loc" none st0).2).2.installs
      = (install envAll "impl" "loc" none st0).2.installs) := by
  refine ⟨by decide, by decide, by decide, by decide⟩

/-- C1 amended: resolving the same (name, location, revision) a second time
in the same output root, when the build directory for the resolved
identifier already exists, discards the staging clone and reuses the
existing build — no new build directory is created and no promotion happens
— but the externally supplied install procedure is invoked again; a new
revision resolving to a different commit produces a distinct identifier and
a distinct build directory. -/
theorem install_reuse_amended (env : GitEnv) (name location : String)
    (revision : Option String) (st : FS) (hclone : env.cloneOk location = true)
    (hco : (match revision with
            | none => true
            | some r => env.checkoutOk location r) = true)
    (hrp : env.revParseOk location revision = true) :
    (install env name location revision st).1 =
      .ok ("build/" ++ (name ++ "_" ++ env.commitOf location revision)) ∧
    ("build/" ++ (name ++ "_" ++ env.commitOf location revision)) ∈
      (install env name location revision st).2.buildDirs ∧
    (install env name location revision
        (install env name location revision st).2).2.buildDirs =
      (install env name location revision st).2.buildDirs ∧
    (install env name location revision
        (install env name location revision st).2).2.moves =
      (install env name location revision st).2.moves ∧
    (install env name location revision
        (install env name location revision st).2).2.installs =
      (name ++ "_" ++ env.commitOf location revision) ::
        (install env name location revision st).2.installs ∧
    (∀ r2 : Option String,
      env.commitOf location revision ≠ env.commitOf location r2 →
      name ++ "_" ++ env.commitOf location revision ≠
        name ++ "_" ++ env.commitOf location r2 ∧
      "build/" ++ (name ++ "_" ++ env.commitOf location revision) ≠
        "build/" ++ (name ++ "_" ++ env.commitOf location r2)) := by
  have h1 := install_ok env name location revision st hclone hco hrp
  have hmem : ("build/" ++ (name ++ "_" ++ env.commitOf location revision)) ∈
      (install env name location revision st).2.buildDirs := by
    rw [h1]
    by_cases h : ("build/" ++ (name ++ "_" ++ env.commitOf location revision)) ∈ st.buildDirs
    · rw [if_pos h]
      exact h
    · rw [if_neg h]
      exact List.mem_cons_self _ _
  have h2 := install_ok env name location revision
    (install env name location revision st).2 hclone hco hrp
  rw [if_pos hmem] at h2
  refine ⟨by rw [h1], hmem, by rw [h2], by rw [h2], by rw [h2], ?_⟩
  intro r2 hne
  have hid : name ++ "_" ++ env.commitOf location revision ≠
      name ++ "_" ++ env.commitOf location r2 := by
    intro h
    exact hne (string_append_cancel h)
  refine ⟨hid, ?_⟩
  intro h
  exact hid (string_append_cancel h)

/-- Witness for the amended C1: in a concrete double resolve of the same
triple, the second run re-invokes the install procedure on the reused
build. -/
theorem install_reuse_amended_witness :
    (install envAll "impl" "loc" none
        (install envAll "impl" "loc" none st0).2).2.installs =
      ("impl" ++ "_" ++ envAll.commitOf "loc" none) ::
        (install envAll "impl" "loc" none st0).2.installs :=
  (install_reuse_amended envAll "impl" "loc" none st0 rfl rfl rfl).2.2.2.2.1

/-- Every event emitted by implementation parsing is a construction event. -/
lemma constructAll_events (builds : List String) :
    ∀ ds : List String, ∀ e ∈ (constructAll builds ds).2, ∃ n, e = Event.construct n := by
  intro ds
  induction ds with
  | nil => intro e he; simp [constructAll] at he
  | cons d rest ih =>
    intro e he
    simp only [constructAll] at he
    cases htok : tokenize_description d true with
    | error er => rw [htok] at he; simp at he
    | ok comps =>
      rw [htok] at he
      dsimp only at he
      by_cases hb : comps.headD "" ∈ builds
      · rw [if_pos hb] at he
        cases hca : constructAll builds rest with
        | mk res evs =>
          rw [hca] at he
          have ih' : ∀ e ∈ evs, ∃ n, e = Event.construct n := by
            intro e' he'
            apply ih
            rw [hca]
            exact he'
          cases res with
          | ok names =>
            dsimp only at he
            rcases List.mem_cons.mp he with h | h
            · exact ⟨comps.headD "", h⟩
            · exact ih' e h
          | error er =>
            dsimp only at he
            rcases List.mem_cons.mp he with h | h
            · exact ⟨comps.headD "", h⟩
            · exact ih' e h
      · rw [if_neg hb] at he
        simp at he

/-- C4 counterexample: in a non-list, non-help run with an unavailable tool,
the driver performs output-root creation and resource construction before
the tool check, and only then raises the tool-availability error — so the
error is not reported before construction work. -/
theorem tool_check_order_counterexample :
    (ion_hash_test_driver ["impl-a", "ion-hash-test"] [] "loc" false
        { help := false, list := false, implementations := ["impl-a,loc"],
          local_only := true, ion_hash_test := none, output_dir := "." })
      = (.error (.toolAvailabilityError "git"),
         [.mkOutputRoot, .construct "impl-a", .toolCheck]) ∧
    Event.construct "impl-a" ∈
      (ion_hash_test_driver ["impl-a", "ion-hash-test"] [] "loc" false
        { help := false, list := false, implementations := ["impl-a,loc"],
          local_only := true, ion_hash_test := none, output_dir := "." }).2 := by
  refine ⟨by rfl, by decide⟩

/-- C4 amended: in every non-list, non-help run with an unavailable tool,
no resource resolution or installation work is performed — the run fails at
or before the tool-availability check — but output-root creation and
resource descriptor parsing/construction do happen before the tool check. -/
theorem tool_check_blocks_real_work (builds ion_implementations : List String)
    (src : String) (args : Args) (hh : args.help = false) (hl : args.list = false) :
    (ion_hash_test_driver builds ion_implementations src false args).1 ≠ .ok () ∧
    (∀ e ∈ (ion_hash_test_driver builds ion_implementations src false args).2,
      e = .mkOutputRoot ∨ (∃ n, e = .construct n) ∨ e = .toolCheck) := by
  simp only [ion_hash_test_driver, hh, hl]
  cases hca : constructAll builds
      (args.implementations ++ (if args.local_only then [] else ion_implementations)) with
  | mk res evs =>
    have hevs : ∀ e ∈ evs, ∃ n, e = Event.construct n := by
      intro e he
      apply constructAll_events builds
      rw [hca]
      exact he
    cases res with
    | error er =>
      dsimp only
      refine ⟨by simp, ?_⟩
      intro e he
      rcases List.mem_cons.mp he with h | h
      · exact Or.inl h
      · exact Or.inr (Or.inl (hevs e h))
    | ok names =>
      dsimp only
      refine ⟨by simp, ?_⟩
      intro e he
      rcases List.mem_cons.mp he with h | h
      · exact Or.inl h
      · rcases List.mem_append.mp h with h2 | h2
        · exact Or.inr (Or.inl (hevs e h2))
        · rcases List.mem_singleton.mp h2 with rfl
          exact Or.inr (Or.inr rfl)

/-- Witness for the amended C4: a concrete unavailable-tool run does not
succeed. -/
theorem tool_check_blocks_real_work_witness :
    (ion_hash_test_driver ["impl-a", "ion-hash-test"] [] "loc" false
        { help := false, list := false, implementations := ["impl-a,loc"],
          local_only := true, ion_hash_test := none, output_dir := "." }).1 ≠ .ok () :=
  (tool_check_blocks_real_work ["impl-a", "ion-hash-test"] [] "loc"
    { help := false, list := false, implementations := ["impl-a,loc"],
      local_only := true, ion_hash_test := none, output_dir := "." } rfl rfl).1

end Ionhashtest
